import Mathlib

/-!
Shallow embedding of the SeaHorn BMC orchestration and harness-synthesis
fragment (src/lib/seahorn/BmcPass.cc and src/lib/seahorn/Harness.cc).

Machine integers are modelled as `Nat` with explicit `% 2 ^ w` where the
source uses fixed-width LLVM integers.  LLVM data structures (functions,
modules, constants) are modelled as plain inductive records carrying
exactly the attributes the embedded code inspects.
-/

set_option autoImplicit false

namespace Seahorn

/-- Linkage of an llvm GlobalValue.  The source only distinguishes
`ExternalLinkage` (tested by `GlobalValue::isExternalLinkage`) and
`PrivateLinkage` (used for the synthesized array and counter); every other
linkage behaves like `internal` for the code under study. -/
inductive Linkage where
  | external
  | internal
  | priv
  deriving DecidableEq

/-- An llvm type as far as the harness synthesizer inspects it: either an
`IntegerType` of a given bit width (the case `dyn_cast<IntegerType>`
succeeds on) or any other type, identified by its textual form. -/
inductive LLType where
  | integer (width : Nat)
  | other (text : String)
  deriving DecidableEq

/-- Result of `dyn_cast<IntegerType>` on a return type. -/
def isIntegerTy : LLType → Bool
  | .integer _ => true
  | .other _ => false

/-- Textual form of a type as produced by `Type::print` (e.g. "i32"). -/
def typeText : LLType → String
  | .integer w => "i" ++ toString w
  | .other s => s

/-- An llvm::Function as inspected by `createLLVMHarness`: optional name
(`hasName`/`getName`), linkage, whether it has a body in the module
(`isDeclaration` would be false), and its return type.  The `hasBody`
field is carried so that statements about definedness can be expressed;
llvm gives every function in a module a distinct name, so a record value
identifies one function. -/
structure Func where
  name : Option String
  linkage : Linkage
  hasBody : Bool
  retTy : LLType
  deriving DecidableEq

/-- The logical-term variants inspected by `exprToLlvm`
(Harness.cc lines 13-30): boolean true, boolean false, an
arbitrary-precision integer (`MPZ`, carried here as the integer it
denotes), and anything else (uninterpreted / unhandled), identified by its
printed form. -/
inductive Expr where
  | etrue
  | efalse
  | mpz (z : Int)
  | unhandled (text : String)
  deriving DecidableEq

/-- Printed form of a logical term, as `errs () << *e` would show it. -/
def exprText : Expr → String
  | .etrue => "true"
  | .efalse => "false"
  | .mpz z => toString z
  | .unhandled s => s

/-- An llvm ConstantInt: a bit width together with the represented value,
kept as a natural number below `2 ^ width`. -/
structure ConstantInt where
  width : Nat
  value : Nat
  deriving DecidableEq

/-- Models `ConstantInt::getTrue (IntegerType *ty)`.  llvm's
`ConstantInt::getTrue (Type*)` asserts its argument is `i1` and always
returns the 1-bit true constant; it never widens to the argument's
width. -/
def constantIntTrue (_ty : Nat) : ConstantInt := ⟨1, 1⟩

/-- Models `ConstantInt::getFalse (IntegerType *ty)`: the 1-bit false
constant, regardless of the argument type's width. -/
def constantIntFalse (_ty : Nat) : ConstantInt := ⟨1, 0⟩

/-- Models `ConstantInt::get (ty, str, 10)` applied to the decimal form of
an integer `z`: an APInt of `ty`'s width holding `z` two's-complement
truncated, i.e. `z mod 2 ^ width`. -/
def constantIntOf (w : Nat) (z : Int) : ConstantInt :=
  ⟨w, (z % ((2 : Int) ^ w)).toNat⟩

/-- Embeds `exprToLlvm` (Harness.cc lines 13-30).  The bit width `w` is the
width of the callee's integer return type. -/
def exprToLlvm (w : Nat) (e : Expr) : ConstantInt :=
  match e with
  | .etrue => constantIntTrue w
  | .efalse => constantIntFalse w
  | .mpz z => constantIntOf w z
  | .unhandled _ => ⟨w, 0⟩

/-- The diagnostic side effect of `exprToLlvm`: the fallback arm prints
`WARNING: Not handled value: ...` under `LOG("cex", ...)`, i.e. only when
the "cex" log tag is enabled (`cexLog`). -/
def exprToLlvmDiags (cexLog : Bool) (e : Expr) : List String :=
  match e with
  | .unhandled _ =>
    if cexLog then ["WARNING: Not handled value: " ++ exprText e ++ "\n"] else []
  | _ => []

/-- An instruction of a basic block as the harness scan sees it: either a
call instruction, carrying the statically resolved callee
(`getCalledFunction`, `none` for an indirect call) and the result of
`trace.eval` at this trace occurrence (`none` when the value is not
evaluable), or any other instruction. -/
inductive Instr where
  | call (callee : Option Func) (value : Option Expr)
  | nonCall
  deriving DecidableEq

/-- A basic block occurrence in a counterexample trace. -/
abbrev Block := List Instr

/-- A counterexample trace as consumed by `createLLVMHarness`: the ordered
basic blocks `trace.bb(0), ..., trace.bb(size-1)`, with each instruction
occurrence paired with its `trace.eval` result. -/
abbrev Trace := List Block

/-- The "original function" filter of Harness.cc lines 55-57: the callee
has a name, the name contains no '.', and its linkage is external.
Nothing else about the callee (in particular not whether it has a body) is
inspected. -/
def isOriginalFunction (f : Func) : Bool :=
  match f.name with
  | none => false
  | some n => !n.data.contains '.' && decide (f.linkage = Linkage.external)

/-- Appends a value to the entry of `f` in the insertion-ordered
association list modelling `FuncValueMap` (`FuncValueMap[CF].push_back(V)`). -/
def addValue : List (Func × List Expr) → Func → Expr → List (Func × List Expr)
  | [], f, v => [(f, [v])]
  | (g, vs) :: rest, f, v =>
    if g = f then (g, vs ++ [v]) :: rest else (g, vs) :: addValue rest f v

/-- Processing of one instruction in the scan loop (Harness.cc lines
43-60): skip non-calls, skip calls with unresolved callee, skip calls
whose value does not evaluate, record the value when the callee passes the
original-function filter. -/
def processInstr (m : List (Func × List Expr)) (i : Instr) : List (Func × List Expr) :=
  match i with
  | .call none _ => m
  | .call (some _) none => m
  | .call (some cf) (some v) =>
    if isOriginalFunction cf then addValue m cf v else m
  | .nonCall => m

/-- Scan of one basic block of the trace, in instruction order. -/
def scanBlock (m : List (Func × List Expr)) (b : Block) : List (Func × List Expr) :=
  b.foldl processInstr m

/-- The trace-scanning loop of `createLLVMHarness` (Harness.cc lines
40-62): blocks in step order, instructions in block order. -/
def scanTrace (t : Trace) : List (Func × List Expr) :=
  t.foldl scanBlock []

/-- The data of one synthesized stub (Harness.cc lines 81-127): the stub
function's name and integer return width, the private constant array of
converted values, the i32 length argument passed to the value provider
(`ConstantInt::get (CountType, values.size ())`, hence reduced mod
`2 ^ 32`), the counter's initial value and linkage, the array's linkage,
and the name requested for the per-stub value-provider declaration. -/
structure StubInfo where
  fname : String
  retWidth : Nat
  array : List ConstantInt
  lenArg : Nat
  counterInit : Nat
  counterLinkage : Linkage
  arrayLinkage : Linkage
  providerName : String
  deriving DecidableEq

/-- The outcome of the per-callee loop body (Harness.cc lines 65-128) for
one entry of `FuncValueMap`: either the callee was skipped because its
return type is not an integer type (after its declaration was already
inserted by `getOrInsertFunction`), or a full stub was synthesized. -/
inductive HarnessEntry where
  | skipped (cf : Func) (declName : String)
  | stubbed (cf : Func) (info : StubInfo)
  deriving DecidableEq

/-- The callee an entry was built for. -/
def entryKey : HarnessEntry → Func
  | .skipped cf _ => cf
  | .stubbed cf _ => cf

/-- The diagnostic printed when a callee's return type is not an integer
type (Harness.cc line 76).  Note there is no `WARNING:` tag. -/
def skipMsg (f : Func) : String :=
  "Skipping non-integer function: " ++ (f.name.getD "") ++ "\n"

/-- The per-callee loop body (Harness.cc lines 65-128), producing the
entry and the diagnostics it prints.  `getOrInsertFunction` runs before
the `dyn_cast<IntegerType>` test, so the skipped case still inserts the
callee's declaration.  For an integer return type the values are converted
with `exprToLlvm`, the array and counter get `PrivateLinkage`, and
`Function::Create` requests the provider name
`"get_value_" ++ typeText`. -/
def buildEntry (cexLog : Bool) (cf : Func) (values : List Expr) :
    HarnessEntry × List String :=
  let declName := cf.name.getD ""
  match cf.retTy with
  | .other _ =>
    (.skipped cf declName, ["Skipping non-integer function: " ++ declName ++ "\n"])
  | .integer w =>
    (.stubbed cf
      { fname := declName
        retWidth := w
        array := values.map (exprToLlvm w)
        lenArg := values.length % 2 ^ 32
        counterInit := 0
        counterLinkage := .priv
        arrayLinkage := .priv
        providerName := "get_value_" ++ typeText (.integer w) },
     (values.map (exprToLlvmDiags cexLog)).flatten)

/-- The per-callee loop of `createLLVMHarness` over all recorded entries,
in map order, collecting entries and diagnostics. -/
def buildEntries (cexLog : Bool) : List (Func × List Expr) → List HarnessEntry × List String
  | [] => ([], [])
  | p :: rest =>
    let e := buildEntry cexLog p.1 p.2
    let r := buildEntries cexLog rest
    (e.1 :: r.1, e.2 ++ r.2)

/-- Embeds `createLLVMHarness` (Harness.cc lines 32-131): scan the trace,
then build one harness entry per recorded callee.  Returns the entries and
the diagnostics printed while building. -/
def createLLVMHarness (cexLog : Bool) (t : Trace) : List HarnessEntry × List String :=
  buildEntries cexLog (scanTrace t)

/-- A top-level item of the synthesized harness module. -/
inductive HarnessItem where
  | funcDecl (name : String) (retTy : LLType)
  | constArray (elemWidth : Nat) (vals : List ConstantInt) (linkage : Linkage)
  | counterGlobal (init : Nat) (linkage : Linkage)
  | providerDecl (requestedName : String) (retWidth : Nat)
  | stubBody (fname : String)
  deriving DecidableEq

/-- The module items one harness entry contributes, in the order the
source creates them: the callee's declaration always (inserted before the
return-type test); for a stubbed callee additionally the constant array,
the counter global, the provider declaration created by
`Function::Create`, and the stub body. -/
def entryItems : HarnessEntry → List HarnessItem
  | .skipped cf declName => [.funcDecl declName cf.retTy]
  | .stubbed cf info =>
    [.funcDecl info.fname cf.retTy,
     .constArray info.retWidth info.array info.arrayLinkage,
     .counterGlobal info.counterInit info.counterLinkage,
     .providerDecl info.providerName info.retWidth,
     .stubBody info.fname]

/-- All items contributed by a list of harness entries. -/
def moduleOf : List HarnessEntry → List HarnessItem
  | [] => []
  | e :: es => entryItems e ++ moduleOf es

/-- The synthesized harness module for a trace. -/
def harnessModule (cexLog : Bool) (t : Trace) : List HarnessItem :=
  moduleOf (createLLVMHarness cexLog t).1

/-- The value-provider declarations of a module, as (requested name,
return width) pairs. -/
def providerDecls (items : List HarnessItem) : List (String × Nat) :=
  items.filterMap (fun it =>
    match it with
    | .providerDecl n w => some (n, w)
    | _ => none)

/-- One step of the synthesized stub's counter update: the stub loads the
counter and unconditionally stores back the 32-bit sum `counter + 1`
(Harness.cc lines 107-116). -/
def stubStep (c : Nat) : Nat := (c + 1) % 2 ^ 32

/-- The counter's content after `n` invocations of the stub, starting
from the zero initializer. -/
def counterAfter : Nat → Nat
  | 0 => 0
  | n + 1 => stubStep (counterAfter n)

/-- The argument tuple a stub invocation passes to the value provider:
the pre-increment counter value, the constant array, and the i32 length
constant (Harness.cc line 111). -/
structure ProviderCall where
  idx : Nat
  arr : List ConstantInt
  len : Nat
  deriving DecidableEq

/-- The provider call made by the `n`-th invocation of a stub (counting
from 1): it passes the counter value before that invocation's increment,
the stub's array, and its length argument. -/
def stubInvocation (info : StubInfo) (n : Nat) : ProviderCall :=
  { idx := counterAfter (n - 1), arr := info.array, len := info.lenArg }

/-- The stub returns the value provider's result directly
(`Builder.CreateRet (RetValue)`): with a provider of result type `α`, the
`n`-th invocation returns the provider applied to that invocation's
argument tuple. -/
def stubRun {α : Type} (provider : ProviderCall → α) (info : StubInfo) (n : Nat) : α :=
  provider (stubInvocation info n)

/-- The two BMC engine variants of `bmc_engine_t`. -/
inductive BmcKind where
  | monoBmc
  | pathBmc
  deriving DecidableEq

/-- A `boost::tribool` as returned by `BmcEngine::solve`: true (sat),
false (unsat), or indeterminate (unknown). -/
inductive Tribool where
  | btrue
  | bfalse
  | bindet
  deriving DecidableEq

/-- A basic block of the analyzed function as `BmcPass::runOnFunction`
inspects it: whether its terminator is a `ReturnInst`, whether the cut
point graph marks it a cut point, and the identifier of its cut point
(`cpg.getCp`). -/
structure BBInfo where
  returns : Bool
  isCutPoint : Bool
  cp : Nat
  deriving DecidableEq

/-- The analyzed function together with its cut point graph: its name, the
cut point of its entry block, its basic blocks in function order, and the
cut point graph's edge relation (`cpg.getEdge`). -/
structure FuncInput where
  name : String
  entryCp : Nat
  blocks : List BBInfo
  edge : Nat → Nat → Bool

/-- The pass configuration plus the external solver's verdict: the engine
variant (`m_engine`), whether an output stream for the encoding was given
(`m_out`), whether to solve (`m_solve`), and the outcome `bmc->solve ()`
reports when invoked. -/
structure Env where
  engine : BmcKind
  hasOut : Bool
  solve : Bool
  solveResult : Tribool

/-- The observable outcome of one `runOnFunction` call: diagnostics
printed to the error stream, whether the symbolic execution engine
(`BvSmallSymExec`), the solver context (`EZ3`) and a BMC engine were
constructed (and which variant), the cut points registered on the engine,
whether `encode` ran, whether the encoding was dumped to the output
stream, whether `solve` was invoked, what was printed on standard output,
the statistics facts recorded by `Stats::sset`, and the pass's boolean
return value. -/
structure RunResult where
  diags : List String
  semConstructed : Bool
  solverCtxConstructed : Bool
  bmcVariant : Option BmcKind
  cutpointsAdded : List Nat
  encoded : Bool
  smtDumped : Bool
  solverInvoked : Bool
  stdout : String
  stats : List (String × String)
  ret : Bool
  deriving DecidableEq

/-- The diagnostic of BmcPass.cc lines 103 and 109. -/
def neverReturnsMsg (name : String) : String :=
  "WARNING: BmcPass: function '" ++ name ++ "' never returns\n"

/-- The search for the destination cut point (BmcPass.cc lines 94-99): the
first basic block whose terminator is a return and which is a cut point. -/
def findDst (blocks : List BBInfo) : Option Nat :=
  (blocks.find? (fun b => b.returns && b.isCutPoint)).map (fun b => b.cp)

/-- The skip outcome of the two early returns (BmcPass.cc lines 101-111):
the warning is printed and nothing else happens. -/
def skipResult (name : String) : RunResult :=
  { diags := [neverReturnsMsg name]
    semConstructed := false
    solverCtxConstructed := false
    bmcVariant := none
    cutpointsAdded := []
    encoded := false
    smtDumped := false
    solverInvoked := false
    stdout := ""
    stats := []
    ret := false }

/-- The outcome of the analysis path (BmcPass.cc lines 113-181) once both
cut points were validated: engines are constructed, `src` and `dst` are
registered, the problem is encoded (and dumped when an output stream was
given); then either the pass stops before solving, or it solves and
reports sat / unsat / unknown with the corresponding statistics fact. -/
def analyzedResult (env : Env) (src dst : Nat) : RunResult :=
  let base : RunResult :=
    { diags := []
      semConstructed := true
      solverCtxConstructed := true
      bmcVariant := some env.engine
      cutpointsAdded := [src, dst]
      encoded := true
      smtDumped := env.hasOut
      solverInvoked := false
      stdout := ""
      stats := []
      ret := false }
  if env.solve then
    match env.solveResult with
    | .btrue =>
      { base with solverInvoked := true, stdout := "sat" ++ "\n",
                  stats := [("Result", "FALSE")] }
    | .bfalse =>
      { base with solverInvoked := true, stdout := "unsat" ++ "\n",
                  stats := [("Result", "TRUE")] }
    | .bindet =>
      { base with solverInvoked := true, stdout := "unknown" ++ "\n",
                  stats := [] }
  else base

/-- Embeds `BmcPass::runOnFunction` (BmcPass.cc lines 86-181). -/
def runOnFunction (env : Env) (F : FuncInput) : RunResult :=
  match findDst F.blocks with
  | none => skipResult F.name
  | some dst =>
    if F.edge F.entryCp dst then analyzedResult env F.entryCp dst
    else skipResult F.name

/-- Embeds `BmcPass::runOnModule` (BmcPass.cc lines 64-69): walk the
module's functions in order and run the analysis on the first one named
"main", returning its result; with no such function nothing runs. -/
def runOnModule (env : Env) : List FuncInput → Option RunResult
  | [] => none
  | F :: rest =>
    if F.name = "main" then some (runOnFunction env F) else runOnModule env rest

/-- The boolean `runOnModule` reports to the pass manager: the analyzed
function's result, or false when no function named "main" exists. -/
def runOnModuleRet (env : Env) (fns : List FuncInput) : Bool :=
  match runOnModule env fns with
  | some r => r.ret
  | none => false

/-- A string names another when the latter occurs verbatim inside it. -/
def mentionsName (s name : String) : Prop :=
  ∃ pre post, s = pre ++ name ++ post

/-- A diagnostic carries the warning tag when its first eight characters
are `WARNING:`. -/
abbrev warnTag (s : String) : Prop :=
  s.data.take 8 = "WARNING:".data

/-- The values one trace instruction contributes for callee `f`: the
evaluated value of a resolved, evaluable call to `f`, nothing otherwise. -/
def callValuesInInstr (f : Func) (i : Instr) : List Expr :=
  match i with
  | .call (some cf) (some v) => if cf = f then [v] else []
  | _ => []

/-- The evaluable values of calls to `f` within one block, in instruction
order. -/
def callValuesIn (f : Func) : Block → List Expr
  | [] => []
  | i :: b => callValuesInInstr f i ++ callValuesIn f b

/-- The evaluable values of calls to `f` along a whole trace, in step
order then instruction order: the reference sequence the recorded value
list is compared against. -/
def callValuesOf (f : Func) : Trace → List Expr
  | [] => []
  | b :: t => callValuesIn f b ++ callValuesOf f t

/-- The value list recorded for `f` in the scan's map (empty when `f` has
no entry). -/
def lookupVals : List (Func × List Expr) → Func → List Expr
  | [], _ => []
  | (g, vs) :: rest, f => if g = f then vs else lookupVals rest f

/-- Whether the scan's map has an entry for `f`. -/
def hasKey (m : List (Func × List Expr)) (f : Func) : Bool :=
  m.any (fun p => decide (p.1 = f))

/-- The first entry of the map with key `f`, as the per-callee loop would
visit it. -/
def assocFind (m : List (Func × List Expr)) (f : Func) : Option (Func × List Expr) :=
  m.find? (fun p => decide (p.1 = f))

/-- The first harness entry built for callee `f`. -/
def entryFor (es : List HarnessEntry) (f : Func) : Option HarnessEntry :=
  es.find? (fun e => decide (entryKey e = f))

/-- Every value list stored in the map is non-empty. -/
def goodMap (m : List (Func × List Expr)) : Prop :=
  ∀ p ∈ m, p.2 ≠ []

theorem strData_append (a b : String) : (a ++ b).data = a.data ++ b.data := rfl

theorem lookupVals_addValue (m : List (Func × List Expr)) (g f : Func) (v : Expr) :
    lookupVals (addValue m g v) f =
      if g = f then lookupVals m f ++ [v] else lookupVals m f := by
  induction m with
  | nil =>
    by_cases h : g = f <;> simp [addValue, lookupVals, h]
  | cons p rest ih =>
    obtain ⟨q, vs⟩ := p
    by_cases hqg : q = g
    · subst hqg
      by_cases hqf : q = f <;> simp [addValue, lookupVals, hqf]
    · by_cases hqf : q = f
      · have hgf : ¬ g = f := fun hg => hqg (hqf.trans hg.symm)
        have hfg : ¬ f = g := fun hg => hgf hg.symm
        simp [addValue, lookupVals, hqg, hqf, hgf, hfg]
      · simp [addValue, lookupVals, hqg, hqf, ih]

theorem lookupVals_processInstr (m : List (Func × List Expr)) (i : Instr) (f : Func) :
    lookupVals (processInstr m i) f =
      lookupVals m f ++
        (if isOriginalFunction f = true then callValuesInInstr f i else []) := by
  cases i with
  | nonCall => simp [processInstr, callValuesInInstr]
  | call callee value =>
    cases callee with
    | none => simp [processInstr, callValuesInInstr]
    | some cf =>
      cases value with
      | none => simp [processInstr, callValuesInInstr]
      | some v =>
        by_cases hcf : cf = f
        · subst hcf
          by_cases ho : isOriginalFunction cf = true <;>
            simp [processInstr, callValuesInInstr, ho, lookupVals_addValue]
        · by_cases ho : isOriginalFunction cf = true <;>
            simp [processInstr, callValuesInInstr, hcf, ho, lookupVals_addValue]

theorem lookupVals_scanBlock (b : Block) (m : List (Func × List Expr)) (f : Func) :
    lookupVals (scanBlock m b) f =
      lookupVals m f ++ (if isOriginalFunction f = true then callValuesIn f b else []) := by
  induction b generalizing m with
  | nil => simp [scanBlock, callValuesIn]
  | cons i b ih =>
    show lookupVals (scanBlock (processInstr m i) b) f = _
    rw [ih, lookupVals_processInstr]
    by_cases h : isOriginalFunction f = true <;> simp [h, callValuesIn]

theorem lookupVals_scanTraceAux (t : Trace) (m : List (Func × List Expr)) (f : Func) :
    lookupVals (t.foldl scanBlock m) f =
      lookupVals m f ++ (if isOriginalFunction f = true then callValuesOf f t else []) := by
  induction t generalizing m with
  | nil => simp [callValuesOf]
  | cons b t ih =>
    show lookupVals (t.foldl scanBlock (scanBlock m b)) f = _
    rw [ih, lookupVals_scanBlock]
    by_cases h : isOriginalFunction f = true <;> simp [h, callValuesOf]

theorem lookupVals_scanTrace (t : Trace) (f : Func) :
    lookupVals (scanTrace t) f =
      if isOriginalFunction f = true then callValuesOf f t else [] := by
  have h := lookupVals_scanTraceAux t [] f
  simpa [scanTrace, lookupVals] using h

theorem goodMap_addValue {m : List (Func × List Expr)} (h : goodMap m)
    (f : Func) (v : Expr) : goodMap (addValue m f v) := by
  induction m with
  | nil =>
    intro p hp
    simp [addValue] at hp
    simp [hp]
  | cons q rest ih =>
    obtain ⟨g, vs⟩ := q
    have hrest : goodMap rest := fun p hp => h p (List.mem_cons_of_mem _ hp)
    by_cases hgf : g = f
    · intro p hp
      simp [addValue, hgf] at hp
      rcases hp with hp | hp
      · simp [hp]
      · exact hrest p hp
    · intro p hp
      simp [addValue, hgf] at hp
      rcases hp with hp | hp
      · subst hp
        exact h (g, vs) (List.mem_cons_self _ _)
      · exact ih hrest p hp

theorem goodMap_processInstr {m : List (Func × List Expr)} (h : goodMap m)
    (i : Instr) : goodMap (processInstr m i) := by
  cases i with
  | nonCall => exact h
  | call callee value =>
    cases callee with
    | none => exact h
    | some cf =>
      cases value with
      | none => exact h
      | some v =>
        by_cases ho : isOriginalFunction cf = true
        · simpa [processInstr, ho] using goodMap_addValue h cf v
        · simpa [processInstr, ho] using h

theorem goodMap_scanBlock {m : List (Func × List Expr)} (h : goodMap m)
    (b : Block) : goodMap (scanBlock m b) := by
  induction b generalizing m with
  | nil => exact h
  | cons i b ih => exact ih (goodMap_processInstr h i)

theorem goodMap_scanTrace (t : Trace) : goodMap (scanTrace t) := by
  have aux : ∀ (t : Trace) (m : List (Func × List Expr)),
      goodMap m → goodMap (t.foldl scanBlock m) := by
    intro t
    induction t with
    | nil => intro m hm; exact hm
    | cons b t ih => intro m hm; exact ih _ (goodMap_scanBlock hm b)
  exact aux t [] (by intro p hp; simp at hp)

theorem hasKey_iff {m : List (Func × List Expr)} (h : goodMap m) (f : Func) :
    hasKey m f = true ↔ lookupVals m f ≠ [] := by
  induction m with
  | nil => simp [hasKey, lookupVals]
  | cons p rest ih =>
    obtain ⟨g, vs⟩ := p
    have hrest : goodMap rest := fun q hq => h q (List.mem_cons_of_mem _ hq)
    by_cases hgf : g = f
    · subst hgf
      have hvs : vs ≠ [] := h (g, vs) (List.mem_cons_self _ _)
      simp [hasKey, lookupVals, hvs]
    · rw [show hasKey ((g, vs) :: rest) f = hasKey rest f by simp [hasKey, hgf],
          show lookupVals ((g, vs) :: rest) f = lookupVals rest f by
            simp [lookupVals, hgf]]
      exact ih hrest

theorem assocFind_eq (m : List (Func × List Expr)) (f : Func) :
    assocFind m f =
      if hasKey m f = true then some (f, lookupVals m f) else none := by
  induction m with
  | nil => simp [assocFind, hasKey]
  | cons p rest ih =>
    obtain ⟨g, vs⟩ := p
    by_cases hgf : g = f
    · subst hgf
      simp [assocFind, hasKey, lookupVals, List.find?]
    · have ha : assocFind ((g, vs) :: rest) f = assocFind rest f := by
        unfold assocFind
        exact List.find?_cons_of_neg _ (by simp [hgf])
      have hk : hasKey ((g, vs) :: rest) f = hasKey rest f := by
        simp [hasKey, hgf]
      have hl : lookupVals ((g, vs) :: rest) f = lookupVals rest f := by
        simp [lookupVals, hgf]
      rw [ha, hk, hl, ih]

theorem entryKey_buildEntry (c : Bool) (cf : Func) (vs : List Expr) :
    entryKey (buildEntry c cf vs).1 = cf := by
  cases h : cf.retTy <;> simp [buildEntry, h, entryKey]

theorem entryFor_buildEntries (c : Bool) (m : List (Func × List Expr)) (f : Func) :
    entryFor (buildEntries c m).1 f =
      (assocFind m f).map (fun p => (buildEntry c p.1 p.2).1) := by
  induction m with
  | nil => rfl
  | cons p rest ih =>
    have hcons : (buildEntries c (p :: rest)).1
        = (buildEntry c p.1 p.2).1 :: (buildEntries c rest).1 := rfl
    rw [hcons]
    by_cases h : p.1 = f
    · have h1 : entryFor ((buildEntry c p.1 p.2).1 :: (buildEntries c rest).1) f
          = some (buildEntry c p.1 p.2).1 := by
        unfold entryFor
        exact List.find?_cons_of_pos _ (by simp [entryKey_buildEntry, h])
      have h2 : assocFind (p :: rest) f = some p := by
        unfold assocFind
        exact List.find?_cons_of_pos _ (by simp [h])
      rw [h1, h2, Option.map_some']
    · have h1 : entryFor ((buildEntry c p.1 p.2).1 :: (buildEntries c rest).1) f
          = entryFor (buildEntries c rest).1 f := by
        unfold entryFor
        exact List.find?_cons_of_neg _ (by simp [entryKey_buildEntry, h])
      have h2 : assocFind (p :: rest) f = assocFind rest f := by
        unfold assocFind
        exact List.find?_cons_of_neg _ (by simp [h])
      rw [h1, h2, ih]

theorem skipMsg_mem_buildEntries (c : Bool) (m : List (Func × List Expr)) (f : Func)
    (s : String) (hty : f.retTy = LLType.other s) (h : hasKey m f = true) :
    skipMsg f ∈ (buildEntries c m).2 := by
  induction m with
  | nil => simp [hasKey] at h
  | cons p rest ih =>
    have hcons : (buildEntries c (p :: rest)).2
        = (buildEntry c p.1 p.2).2 ++ (buildEntries c rest).2 := rfl
    rw [hcons]
    by_cases hpf : p.1 = f
    · apply List.mem_append_left
      rw [hpf]
      simp [buildEntry, hty, skipMsg]
    · apply List.mem_append_right
      apply ih
      simpa [hasKey, hpf] using h

theorem stubbed_mem_fields (c : Bool) (m : List (Func × List Expr)) (f : Func)
    (info : StubInfo) (h : HarnessEntry.stubbed f info ∈ (buildEntries c m).1) :
    info.counterInit = 0 ∧ info.counterLinkage = Linkage.priv ∧
    info.arrayLinkage = Linkage.priv := by
  induction m with
  | nil => simp [buildEntries] at h
  | cons p rest ih =>
    have hcons : (buildEntries c (p :: rest)).1
        = (buildEntry c p.1 p.2).1 :: (buildEntries c rest).1 := rfl
    rw [hcons] at h
    rcases List.mem_cons.mp h with h | h
    · cases hty : p.1.retTy with
      | other s => simp [buildEntry, hty] at h
      | integer w =>
        simp only [buildEntry, hty, HarnessEntry.stubbed.injEq] at h
        rw [h.2]
        exact ⟨rfl, rfl, rfl⟩
    · exact ih h

/-- The counter's 32-bit cell holds `n mod 2 ^ 32` after `n` stub
invocations. -/
theorem counterAfter_eq (n : Nat) : counterAfter n = n % 2 ^ 32 := by
  induction n with
  | zero => rfl
  | succ n ih =>
    have h1 : (1 : Nat) % 2 ^ 32 = 1 := Nat.mod_eq_of_lt (by norm_num)
    rw [counterAfter, ih, stubStep, Nat.add_mod n 1, h1]

/-- The provider declaration one recorded callee gives rise to, if any. -/
def stubProviderOf (p : Func × List Expr) : Option (String × Nat) :=
  match p.1.retTy with
  | .integer w => some ("get_value_" ++ typeText (.integer w), w)
  | .other _ => none

theorem providerDecls_append (l1 l2 : List HarnessItem) :
    providerDecls (l1 ++ l2) = providerDecls l1 ++ providerDecls l2 :=
  List.filterMap_append l1 l2 _

theorem providerDecls_moduleOf (c : Bool) (m : List (Func × List Expr)) :
    providerDecls (moduleOf (buildEntries c m).1) = m.filterMap stubProviderOf := by
  induction m with
  | nil => rfl
  | cons p rest ih =>
    have hcons : moduleOf (buildEntries c (p :: rest)).1
        = entryItems (buildEntry c p.1 p.2).1 ++ moduleOf (buildEntries c rest).1 := rfl
    rw [hcons, providerDecls_append, ih, List.filterMap_cons]
    cases hty : p.1.retTy with
    | other s => simp [buildEntry, hty, entryItems, providerDecls, stubProviderOf]
    | integer w => simp [buildEntry, hty, entryItems, providerDecls, stubProviderOf]

theorem runOnFunction_skip (env : Env) (F : FuncInput)
    (h : (∀ b ∈ F.blocks, b.returns = false ∨ b.isCutPoint = false) ∨
         (∃ dst, findDst F.blocks = some dst ∧ F.edge F.entryCp dst = false)) :
    runOnFunction env F = skipResult F.name := by
  rcases h with h | ⟨dst, h1, h2⟩
  · have hnone : findDst F.blocks = none := by
      unfold findDst
      rw [List.find?_eq_none.mpr, Option.map_none']
      intro b hb
      rcases h b hb with h' | h' <;> simp [h']
    simp [runOnFunction, hnone]
  · simp [runOnFunction, h1, h2]

theorem runOnFunction_ret_false (env : Env) (F : FuncInput) :
    (runOnFunction env F).ret = false := by
  unfold runOnFunction
  cases findDst F.blocks with
  | none => rfl
  | some dst =>
    dsimp only
    split
    · unfold analyzedResult
      dsimp only
      split
      · cases env.solveResult <;> rfl
      · rfl
    · rfl

theorem warnTag_append2 (litA mid litB : String) (hlen : 8 ≤ litA.data.length)
    (htake : litA.data.take 8 = "WARNING:".data) :
    warnTag (litA ++ mid ++ litB) := by
  show ((litA ++ mid ++ litB).data).take 8 = _
  rw [strData_append, strData_append, List.append_assoc,
      List.take_append_of_le_length hlen, htake]

theorem notWarnTag_append2 (litA mid litB : String) (hlen : 8 ≤ litA.data.length)
    (htake : litA.data.take 8 ≠ "WARNING:".data) :
    ¬ warnTag (litA ++ mid ++ litB) := by
  show ¬ ((litA ++ mid ++ litB).data).take 8 = _
  rw [strData_append, strData_append, List.append_assoc,
      List.take_append_of_le_length hlen]
  exact htake

theorem analyzedResult_outcome (env : Env) (s d : Nat) (hs : env.solve = true) :
    (analyzedResult env s d).stdout =
      (match env.solveResult with
       | .btrue => "sat" ++ "\n"
       | .bfalse => "unsat" ++ "\n"
       | .bindet => "unknown" ++ "\n") ∧
    (analyzedResult env s d).stats =
      (match env.solveResult with
       | .btrue => [("Result", "FALSE")]
       | .bfalse => [("Result", "TRUE")]
       | .bindet => []) := by
  unfold analyzedResult
  cases henv : env.solveResult <;> simp [hs, henv]

theorem runOnFunction_analyzed (env : Env) (F : FuncInput) (dst : Nat)
    (hd : findDst F.blocks = some dst) (he : F.edge F.entryCp dst = true) :
    runOnFunction env F = analyzedResult env F.entryCp dst := by
  unfold runOnFunction
  rw [hd]
  dsimp only
  rw [if_pos he]

/-! Concrete fixtures used by witnesses and counterexamples. -/

/-- An external, body-less callee of return type i32. -/
def fW1 : Func :=
  { name := some "f", linkage := .external, hasBody := false, retTy := .integer 32 }

/-- A two-step trace with two evaluable calls to `fW1` (values 3 and
boolean true, in that order), one unevaluable call to it, and one
unresolved call. -/
def tW1 : Trace :=
  [[Instr.call (some fW1) (some (.mpz 3)), Instr.call (some fW1) none],
   [Instr.call none (some (.mpz 9)), Instr.call (some fW1) (some .etrue)]]

/-- A callee that is defined in the module (it has a body) but carries
external linkage, as any non-static C function does. -/
def fBody : Func :=
  { name := some "foo", linkage := .external, hasBody := true, retTy := .integer 32 }

/-- A one-call trace to the defined function `fBody`. -/
def tBody : Trace := [[Instr.call (some fBody) (some (.mpz 5))]]

/-- An external callee visible to the filter, of return type i8. -/
def fW2 : Func :=
  { name := some "ext", linkage := .external, hasBody := true, retTy := .integer 8 }

/-- A one-call trace to `fW2`. -/
def tW2 : Trace := [[Instr.call (some fW2) (some .efalse)]]

/-- An external callee with a non-integer return type. -/
def fBar : Func :=
  { name := some "bar", linkage := .external, hasBody := false, retTy := .other "double" }

/-- A one-call trace to the non-integer callee `fBar`. -/
def tBar : Trace := [[Instr.call (some fBar) (some (.mpz 1))]]

/-- Claim C1: for every callee passing the original-function filter with
an integer return type and at least one evaluable call, the harness entry
built for it carries exactly the evaluable call values of the trace, in
step order then instruction order, converted at the callee's width, and
the array's length equals the count of evaluable calls. -/
theorem c1_harness_array_trace_order (c : Bool) (t : Trace) (f : Func) (w : Nat)
    (hf : isOriginalFunction f = true) (hw : f.retTy = LLType.integer w)
    (hne : callValuesOf f t ≠ []) :
    entryFor (createLLVMHarness c t).1 f =
      some (HarnessEntry.stubbed f
        { fname := f.name.getD ""
          retWidth := w
          array := (callValuesOf f t).map (exprToLlvm w)
          lenArg := (callValuesOf f t).length % 2 ^ 32
          counterInit := 0
          counterLinkage := .priv
          arrayLinkage := .priv
          providerName := "get_value_" ++ typeText (.integer w) }) ∧
    ((callValuesOf f t).map (exprToLlvm w)).length = (callValuesOf f t).length := by
  have hlook : lookupVals (scanTrace t) f = callValuesOf f t := by
    rw [lookupVals_scanTrace, if_pos hf]
  have hkey : hasKey (scanTrace t) f = true := by
    rw [hasKey_iff (goodMap_scanTrace t), hlook]
    exact hne
  have hfind : assocFind (scanTrace t) f = some (f, callValuesOf f t) := by
    rw [assocFind_eq, if_pos hkey, hlook]
  constructor
  · rw [show createLLVMHarness c t = buildEntries c (scanTrace t) from rfl,
        entryFor_buildEntries, hfind, Option.map_some']
    simp [buildEntry, hw]
  · exact List.length_map _ _

/-- Witness for C1 at the concrete trace `tW1`: the array for `fW1` is
exactly the converted pair of evaluable values, in trace order. -/
theorem c1_witness :
    isOriginalFunction fW1 = true ∧ fW1.retTy = LLType.integer 32 ∧
    callValuesOf fW1 tW1 ≠ [] ∧
    entryFor (createLLVMHarness false tW1).1 fW1 =
      some (HarnessEntry.stubbed fW1
        { fname := "f"
          retWidth := 32
          array := [⟨32, 3⟩, ⟨1, 1⟩]
          lenArg := 2
          counterInit := 0
          counterLinkage := .priv
          arrayLinkage := .priv
          providerName := "get_value_i32" }) := by
  refine ⟨by decide, by decide, by decide, ?_⟩
  have h :=
    (c1_harness_array_trace_order false tW1 fW1 32 (by decide) (by decide) (by decide)).1
  rw [h]
  decide

/-- Counterexample to C2 as stated: a function that has a body in the
module but external linkage is recorded and receives a stub. -/
theorem c2_counterexample :
    fBody.hasBody = true ∧
    (createLLVMHarness false tBody).1 =
      [HarnessEntry.stubbed fBody
        { fname := "foo"
          retWidth := 32
          array := [⟨32, 5⟩]
          lenArg := 1
          counterInit := 0
          counterLinkage := .priv
          arrayLinkage := .priv
          providerName := "get_value_i32" }] := by
  decide

/-- Claim C2 (amended): a call site is recorded only if the resolved
callee has a name containing no '.' and its linkage is external; whether
the callee has a body in the module is not checked. -/
theorem c2_filter_linkage_only (t : Trace) (f : Func)
    (h : hasKey (scanTrace t) f = true) :
    (∃ n, f.name = some n ∧ n.data.contains '.' = false) ∧
    f.linkage = Linkage.external := by
  have hok : isOriginalFunction f = true := by
    by_contra hno
    have hl := lookupVals_scanTrace t f
    rw [if_neg hno] at hl
    exact (hasKey_iff (goodMap_scanTrace t) f).mp h hl
  unfold isOriginalFunction at hok
  cases hn : f.name with
  | none => rw [hn] at hok; exact absurd hok (by simp)
  | some n =>
    rw [hn] at hok
    have h1 := (Bool.and_eq_true _ _).mp hok
    refine ⟨⟨n, rfl, ?_⟩, ?_⟩
    · simpa using h1.1
    · simpa using h1.2

/-- Witness for C2 (amended) at the concrete trace `tW2`. -/
theorem c2_witness :
    hasKey (scanTrace tW2) fW2 = true ∧
    ((∃ n, fW2.name = some n ∧ n.data.contains '.' = false) ∧
     fW2.linkage = Linkage.external) :=
  ⟨by decide, c2_filter_linkage_only tW2 fW2 (by decide)⟩

/-- Counterexample to C3 as stated: boolean true does not convert to the
constant 1 of the callee's 32-bit width but to the 1-bit true constant,
and with cex logging disabled the fallback emits no diagnostic. -/
theorem c3_counterexample :
    exprToLlvm 32 Expr.etrue ≠ ⟨32, 1⟩ ∧
    exprToLlvm 32 Expr.etrue = ⟨1, 1⟩ ∧
    exprToLlvmDiags false (Expr.unhandled "v") = [] := by
  decide

/-- Claim C3 (amended): boolean true and false convert to the 1-bit
constants 1 and 0 regardless of the callee's width; an in-range integer
literal converts to the constant of the callee's width holding its value;
every other value converts to 0 of the callee's width, with the warning
diagnostic emitted exactly when cex logging is enabled; the conversion is
total. -/
theorem c3_exprToLlvm_cases (w : Nat) (z : Int) (s : String)
    (hz : 0 ≤ z) (hzw : z < 2 ^ w) :
    exprToLlvm w Expr.etrue = ⟨1, 1⟩ ∧
    exprToLlvm w Expr.efalse = ⟨1, 0⟩ ∧
    exprToLlvm w (Expr.mpz z) = ⟨w, z.toNat⟩ ∧
    exprToLlvm w (Expr.unhandled s) = ⟨w, 0⟩ ∧
    exprToLlvmDiags true (Expr.unhandled s) =
      ["WARNING: Not handled value: " ++ s ++ "\n"] ∧
    exprToLlvmDiags false (Expr.unhandled s) = [] ∧
    exprToLlvmDiags true (Expr.mpz z) = [] ∧
    exprToLlvmDiags true Expr.etrue = [] ∧
    exprToLlvmDiags true Expr.efalse = [] := by
  refine ⟨rfl, rfl, ?_, rfl, rfl, rfl, rfl, rfl, rfl⟩
  show constantIntOf w z = _
  unfold constantIntOf
  rw [Int.emod_eq_of_lt hz hzw]

/-- Witness for C3 (amended): the literal 42 at width 32 converts to the
32-bit constant 42, and boolean true to the 1-bit constant 1. -/
theorem c3_witness :
    (0 : Int) ≤ 42 ∧ (42 : Int) < 2 ^ 32 ∧
    exprToLlvm 32 (Expr.mpz 42) = ⟨32, 42⟩ ∧
    exprToLlvm 32 Expr.etrue = ⟨1, 1⟩ := by
  refine ⟨by decide, by decide, ?_, ?_⟩
  · have h := (c3_exprToLlvm_cases 32 42 "x" (by decide) (by decide)).2.2.1
    rw [h]
    decide
  · exact (c3_exprToLlvm_cases 32 42 "x" (by decide) (by decide)).1

/-- Counterexample to C4 as stated: the skipped non-integer callee's
declaration does appear in the harness module, because
`getOrInsertFunction` runs before the return-type test. -/
theorem c4_counterexample :
    HarnessItem.funcDecl "bar" (LLType.other "double") ∈ harnessModule false tBar ∧
    (createLLVMHarness false tBar).2 = ["Skipping non-integer function: bar\n"] := by
  decide

/-- Claim C4 (amended): a recorded callee with a non-integer return type
is skipped with the diagnostic, and its entry contributes only the bare
declaration to the module; no array, counter, provider or stub body for it
appears. -/
theorem c4_skip_noninteger (c : Bool) (t : Trace) (f : Func) (s : String)
    (hty : f.retTy = LLType.other s) (hk : hasKey (scanTrace t) f = true) :
    entryFor (createLLVMHarness c t).1 f =
      some (HarnessEntry.skipped f (f.name.getD "")) ∧
    skipMsg f ∈ (createLLVMHarness c t).2 ∧
    entryItems (HarnessEntry.skipped f (f.name.getD "")) =
      [HarnessItem.funcDecl (f.name.getD "") f.retTy] := by
  have hfind : assocFind (scanTrace t) f = some (f, lookupVals (scanTrace t) f) := by
    rw [assocFind_eq, if_pos hk]
  refine ⟨?_, ?_, rfl⟩
  · rw [show createLLVMHarness c t = buildEntries c (scanTrace t) from rfl,
        entryFor_buildEntries, hfind, Option.map_some']
    simp [buildEntry, hty]
  · exact skipMsg_mem_buildEntries c (scanTrace t) f s hty hk

/-- Witness for C4 (amended) at the concrete trace `tBar`. -/
theorem c4_witness :
    fBar.retTy = LLType.other "double" ∧ hasKey (scanTrace tBar) fBar = true ∧
    (entryFor (createLLVMHarness false tBar).1 fBar =
       some (HarnessEntry.skipped fBar (fBar.name.getD "")) ∧
     skipMsg fBar ∈ (createLLVMHarness false tBar).2 ∧
     entryItems (HarnessEntry.skipped fBar (fBar.name.getD "")) =
       [HarnessItem.funcDecl (fBar.name.getD "") fBar.retTy]) :=
  ⟨rfl, by decide, c4_skip_noninteger false tBar fBar "double" rfl (by decide)⟩

/-- A pass configuration with solving enabled and a sat verdict. -/
def envW : Env :=
  { engine := .monoBmc, hasOut := false, solve := true, solveResult := .btrue }

/-- A function with no returning cut point: its first block does not
return and its second block returns but is not a cut point. -/
def FW5 : FuncInput :=
  { name := "main", entryCp := 0,
    blocks := [⟨false, true, 0⟩, ⟨true, false, 1⟩],
    edge := fun _ _ => true }

/-- A function whose single block returns, is a cut point, and is
reachable from the entry cut point. -/
def FW6 : FuncInput :=
  { name := "main", entryCp := 0,
    blocks := [⟨true, true, 1⟩],
    edge := fun _ _ => true }

/-- Claim C5: an unanalyzable procedure (no returning cut point, or no
edge from the entry cut point to the return cut point) yields only the
warning naming the procedure; the symbolic execution engine, the solver
context and the BMC engine are never constructed, the solver is never
invoked, and the pass returns false rather than aborting. -/
theorem c5_skip_unanalyzable (env : Env) (F : FuncInput)
    (h : (∀ b ∈ F.blocks, b.returns = false ∨ b.isCutPoint = false) ∨
         (∃ dst, findDst F.blocks = some dst ∧ F.edge F.entryCp dst = false)) :
    (runOnFunction env F).diags = [neverReturnsMsg F.name] ∧
    mentionsName (neverReturnsMsg F.name) F.name ∧
    (runOnFunction env F).semConstructed = false ∧
    (runOnFunction env F).solverCtxConstructed = false ∧
    (runOnFunction env F).bmcVariant = none ∧
    (runOnFunction env F).solverInvoked = false ∧
    (runOnFunction env F).ret = false := by
  rw [runOnFunction_skip env F h]
  exact ⟨rfl, ⟨"WARNING: BmcPass: function '", "' never returns\n", rfl⟩,
         rfl, rfl, rfl, rfl, rfl⟩

/-- Witness for C5 at the concrete function `FW5`, which has no returning
cut point. -/
theorem c5_witness :
    (∀ b ∈ FW5.blocks, b.returns = false ∨ b.isCutPoint = false) ∧
    ((runOnFunction envW FW5).diags = [neverReturnsMsg FW5.name] ∧
     mentionsName (neverReturnsMsg FW5.name) FW5.name ∧
     (runOnFunction envW FW5).semConstructed = false ∧
     (runOnFunction envW FW5).solverCtxConstructed = false ∧
     (runOnFunction envW FW5).bmcVariant = none ∧
     (runOnFunction envW FW5).solverInvoked = false ∧
     (runOnFunction envW FW5).ret = false) :=
  ⟨by decide, c5_skip_unanalyzable envW FW5 (Or.inl (by decide))⟩

/-- Claim C6: with solving enabled on an analyzable procedure, standard
output receives exactly one of "sat", "unsat", "unknown", newline
terminated, matching the solver's verdict; the statistics fact Result is
FALSE exactly on sat, TRUE exactly on unsat, and absent on unknown. -/
theorem c6_solve_reporting (env : Env) (F : FuncInput) (dst : Nat)
    (hs : env.solve = true) (hd : findDst F.blocks = some dst)
    (he : F.edge F.entryCp dst = true) :
    ((runOnFunction env F).stdout = "sat" ++ "\n" ∨
     (runOnFunction env F).stdout = "unsat" ++ "\n" ∨
     (runOnFunction env F).stdout = "unknown" ++ "\n") ∧
    ((runOnFunction env F).stdout = "sat" ++ "\n" ↔
      env.solveResult = Tribool.btrue) ∧
    ((runOnFunction env F).stdout = "unsat" ++ "\n" ↔
      env.solveResult = Tribool.bfalse) ∧
    ((runOnFunction env F).stats = [("Result", "FALSE")] ↔
      env.solveResult = Tribool.btrue) ∧
    ((runOnFunction env F).stats = [("Result", "TRUE")] ↔
      env.solveResult = Tribool.bfalse) ∧
    (env.solveResult = Tribool.bindet →
      (runOnFunction env F).stdout = "unknown" ++ "\n" ∧
      (runOnFunction env F).stats = []) := by
  have hrun := runOnFunction_analyzed env F dst hd he
  obtain ⟨h1, h2⟩ := analyzedResult_outcome env F.entryCp dst hs
  rw [hrun, h1, h2]
  cases henv : env.solveResult <;> decide

/-- Witness for C6 at the concrete function `FW6` with a sat verdict. -/
theorem c6_witness :
    envW.solve = true ∧ findDst FW6.blocks = some 1 ∧
    FW6.edge FW6.entryCp 1 = true ∧
    (((runOnFunction envW FW6).stdout = "sat" ++ "\n" ∨
      (runOnFunction envW FW6).stdout = "unsat" ++ "\n" ∨
      (runOnFunction envW FW6).stdout = "unknown" ++ "\n") ∧
     ((runOnFunction envW FW6).stdout = "sat" ++ "\n" ↔
       envW.solveResult = Tribool.btrue) ∧
     ((runOnFunction envW FW6).stdout = "unsat" ++ "\n" ↔
       envW.solveResult = Tribool.bfalse) ∧
     ((runOnFunction envW FW6).stats = [("Result", "FALSE")] ↔
       envW.solveResult = Tribool.btrue) ∧
     ((runOnFunction envW FW6).stats = [("Result", "TRUE")] ↔
       envW.solveResult = Tribool.bfalse) ∧
     (envW.solveResult = Tribool.bindet →
       (runOnFunction envW FW6).stdout = "unknown" ++ "\n" ∧
       (runOnFunction envW FW6).stats = [])) :=
  ⟨rfl, rfl, rfl, c6_solve_reporting envW FW6 1 rfl rfl rfl⟩

/-- Two distinct external callees sharing the return type i32. -/
def f7a : Func :=
  { name := some "f1", linkage := .external, hasBody := false, retTy := .integer 32 }

/-- Second i32 callee for the provider-sharing counterexample. -/
def f7b : Func :=
  { name := some "f2", linkage := .external, hasBody := false, retTy := .integer 32 }

/-- A trace calling both i32 callees once. -/
def t7 : Trace :=
  [[Instr.call (some f7a) (some (.mpz 1)), Instr.call (some f7b) (some (.mpz 2))]]

/-- Counterexample to C7 as stated: two stubbed callees of the same
return type produce two value-provider declarations, not one shared
declaration per distinct type. -/
theorem c7_counterexample :
    providerDecls (harnessModule false t7) =
      [("get_value_i32", 32), ("get_value_i32", 32)] ∧
    (providerDecls (harnessModule false t7)).length ≠ 1 := by
  decide

/-- Claim C7 (amended): `Function::Create` runs once per stubbed callee,
so the module holds one value-provider declaration per stubbed callee (not
per distinct return type), each requesting the name formed from the fixed
prefix "get_value_" and the return type's textual form. -/
theorem c7_provider_per_stub (c : Bool) (t : Trace) :
    providerDecls (harnessModule c t) = (scanTrace t).filterMap stubProviderOf := by
  unfold harnessModule createLLVMHarness
  exact providerDecls_moduleOf c (scanTrace t)

/-- An external i32 callee for the stub-counter claims. -/
def g8 : Func :=
  { name := some "g", linkage := .external, hasBody := false, retTy := .integer 32 }

/-- A one-call trace to `g8` with value 7. -/
def t8 : Trace := [[Instr.call (some g8) (some (.mpz 7))]]

/-- The stub data synthesized for `g8` from `t8`. -/
def info8 : StubInfo :=
  { fname := "g", retWidth := 32, array := [⟨32, 7⟩], lenArg := 1,
    counterInit := 0, counterLinkage := .priv, arrayLinkage := .priv,
    providerName := "get_value_i32" }

/-- Counterexample to C8 as stated: the counter is a 32-bit cell, so on
invocation number 2^32 + 1 the stub passes index 0 to the provider, not
n - 1 = 2^32. -/
theorem c8_counterexample :
    (stubInvocation info8 (2 ^ 32 + 1)).idx = 0 ∧
    (2 ^ 32 + 1 : Nat) - 1 ≠ 0 := by
  constructor
  · show counterAfter (2 ^ 32 + 1 - 1) = 0
    rw [show (2 ^ 32 + 1 - 1 : Nat) = 2 ^ 32 from rfl, counterAfter_eq, Nat.mod_self]
  · norm_num

/-- Claim C8 (amended): every synthesized stub has a private counter
initialized to zero; each invocation loads it, unconditionally stores back
the 32-bit sum counter + 1, and passes the pre-increment value, the array
and the length argument to the value provider, returning the provider's
result directly; hence the n-th invocation passes (n - 1) mod 2^32. -/
theorem c8_stub_counter (c : Bool) (t : Trace) (f : Func) (info : StubInfo)
    (h : HarnessEntry.stubbed f info ∈ (createLLVMHarness c t).1) :
    info.counterInit = 0 ∧ info.counterLinkage = Linkage.priv ∧
    (∀ n : Nat, counterAfter n = n % 2 ^ 32) ∧
    (∀ n : Nat, 1 ≤ n →
      stubInvocation info n =
        { idx := (n - 1) % 2 ^ 32, arr := info.array, len := info.lenArg }) ∧
    (∀ (α : Type) (provider : ProviderCall → α) (n : Nat),
      stubRun provider info n = provider (stubInvocation info n)) := by
  have hf := stubbed_mem_fields c (scanTrace t) f info h
  refine ⟨hf.1, hf.2.1, counterAfter_eq, ?_, ?_⟩
  · intro n _
    unfold stubInvocation
    rw [counterAfter_eq]
  · intro α provider n
    rfl

/-- Witness for C8 (amended) at the concrete trace `t8`. -/
theorem c8_witness :
    HarnessEntry.stubbed g8 info8 ∈ (createLLVMHarness false t8).1 ∧
    (info8.counterInit = 0 ∧ info8.counterLinkage = Linkage.priv ∧
     (∀ n : Nat, counterAfter n = n % 2 ^ 32) ∧
     (∀ n : Nat, 1 ≤ n →
       stubInvocation info8 n =
         { idx := (n - 1) % 2 ^ 32, arr := info8.array, len := info8.lenArg }) ∧
     (∀ (α : Type) (provider : ProviderCall → α) (n : Nat),
       stubRun provider info8 n = provider (stubInvocation info8 n))) :=
  ⟨by decide, c8_stub_counter false t8 g8 info8 (by decide)⟩

/-- An external callee of non-integer return type for the diagnostics
claims. -/
def f9 : Func :=
  { name := some "h", linkage := .external, hasBody := false, retTy := .other "float" }

/-- A one-call trace to the non-integer callee `f9`. -/
def t9 : Trace := [[Instr.call (some f9) (some (.mpz 4))]]

/-- Counterexample to C9 as stated: the non-integer skip diagnostic does
not carry the WARNING: tag, and the unhandled-value diagnostic is not
emitted when cex logging is disabled, so it is not unconditional. -/
theorem c9_counterexample :
    (createLLVMHarness false t9).2 = ["Skipping non-integer function: h\n"] ∧
    ¬ warnTag "Skipping non-integer function: h\n" ∧
    exprToLlvmDiags false (Expr.unhandled "v9") = [] := by
  refine ⟨by decide, by decide, by decide⟩

/-- Claim C9 (amended): the unanalyzable-procedure diagnostic is one line
with the WARNING: tag naming the procedure, emitted unconditionally; the
non-integer skip diagnostic is one line naming the function but without
the WARNING: tag; the unhandled-value diagnostic carries the WARNING: tag
but names the value, and is emitted only when cex logging is enabled. -/
theorem c9_diagnostics :
    (∀ (env : Env) (F : FuncInput),
      ((∀ b ∈ F.blocks, b.returns = false ∨ b.isCutPoint = false) ∨
       (∃ dst, findDst F.blocks = some dst ∧ F.edge F.entryCp dst = false)) →
      (runOnFunction env F).diags = [neverReturnsMsg F.name] ∧
      warnTag (neverReturnsMsg F.name) ∧
      mentionsName (neverReturnsMsg F.name) F.name) ∧
    (∀ (c : Bool) (t : Trace) (f : Func) (s : String),
      f.retTy = LLType.other s → hasKey (scanTrace t) f = true →
      skipMsg f ∈ (createLLVMHarness c t).2 ∧
      ¬ warnTag (skipMsg f) ∧ mentionsName (skipMsg f) (f.name.getD "")) ∧
    (∀ s : String,
      exprToLlvmDiags true (Expr.unhandled s) =
        ["WARNING: Not handled value: " ++ s ++ "\n"] ∧
      warnTag ("WARNING: Not handled value: " ++ s ++ "\n") ∧
      exprToLlvmDiags false (Expr.unhandled s) = []) := by
  refine ⟨?_, ?_, ?_⟩
  · intro env F h
    rw [runOnFunction_skip env F h]
    exact ⟨rfl,
      warnTag_append2 "WARNING: BmcPass: function '" F.name "' never returns\n"
        (by decide) (by decide),
      ⟨"WARNING: BmcPass: function '", "' never returns\n", rfl⟩⟩
  · intro c t f s hty hk
    refine ⟨skipMsg_mem_buildEntries c (scanTrace t) f s hty hk, ?_, ?_⟩
    · exact notWarnTag_append2 "Skipping non-integer function: " (f.name.getD "") "\n"
        (by decide) (by decide)
    · exact ⟨"Skipping non-integer function: ", "\n", rfl⟩
  · intro s
    exact ⟨rfl,
      warnTag_append2 "WARNING: Not handled value: " s "\n" (by decide) (by decide),
      rfl⟩

/-- Witness for C9 (amended) at the concrete fixtures `FW5`, `t9` and the
unhandled value "v9". -/
theorem c9_witness :
    ((runOnFunction envW FW5).diags = [neverReturnsMsg FW5.name] ∧
     warnTag (neverReturnsMsg FW5.name) ∧
     mentionsName (neverReturnsMsg FW5.name) FW5.name) ∧
    (skipMsg f9 ∈ (createLLVMHarness false t9).2 ∧
     ¬ warnTag (skipMsg f9) ∧ mentionsName (skipMsg f9) (f9.name.getD "")) ∧
    (exprToLlvmDiags true (Expr.unhandled "v9") =
       ["WARNING: Not handled value: " ++ "v9" ++ "\n"] ∧
     warnTag ("WARNING: Not handled value: " ++ "v9" ++ "\n") ∧
     exprToLlvmDiags false (Expr.unhandled "v9") = []) :=
  ⟨c9_diagnostics.1 envW FW5 (Or.inl (by decide)),
   c9_diagnostics.2.1 false t9 f9 "float" rfl (by decide),
   c9_diagnostics.2.2 "v9"⟩

/-- Claim C10: `runOnModule` analyzes exactly the first function named
"main" (none when the module has no such function), and in every case
reports false, never a module change. -/
theorem c10_runOnModule_main_only (env : Env) (fns : List FuncInput) :
    runOnModule env fns =
      (fns.find? (fun F => decide (F.name = "main"))).map (runOnFunction env) ∧
    runOnModuleRet env fns = false := by
  have hmod : runOnModule env fns =
      (fns.find? (fun F => decide (F.name = "main"))).map (runOnFunction env) := by
    induction fns with
    | nil => rfl
    | cons F rest ih =>
      by_cases h : F.name = "main"
      · rw [show runOnModule env (F :: rest) = some (runOnFunction env F) by
              simp [runOnModule, h],
            List.find?_cons_of_pos _ (by simp [h]), Option.map_some']
      · rw [show runOnModule env (F :: rest) = runOnModule env rest by
              simp [runOnModule, h],
            List.find?_cons_of_neg _ (by simp [h]), ih]
  refine ⟨hmod, ?_⟩
  unfold runOnModuleRet
  rw [hmod]
  cases hf : fns.find? (fun F => decide (F.name = "main")) with
  | none => rfl
  | some F => simp [runOnFunction_ret_false]

end Seahorn
